import Mathlib

/-!
Verification development for the Pinfairy content-extraction engine
(`src/services/pinterest.py`, `src/modules/pinterest.py`,
`src/services/database.py`, constants from `src/constants.py`).

The Python code is shallowly embedded: pure string manipulation is modelled
over `List Char` / `String`, dictionaries as insertion-ordered association
lists, Python `set` objects as duplicate-free lists in insertion order, and
the stateful retry / circuit-breaker mixin as explicit state passing with a
logical clock (`Nat` seconds).  All definitions are structurally recursive so
that concrete runs evaluate inside the kernel.
-/

namespace Pinfairy

/-! ### String utilities

Faithful models of the Python string/regex operations used by the service:
`str.endswith`, substring containment (`in`), `re.sub(r'/\d+x\d+/', ...)`,
`re.search(r'/(\d+)x(\d+)/', ...)`, `url.split('/')[-1].split('?')[0]` and
`str.replace`. -/

/-- Does the second list start with the first list? (char-by-char). -/
def startsWithL : List Char → List Char → Bool
  | [], _ => true
  | _ :: _, [] => false
  | p :: ps, c :: cs => p == c && startsWithL ps cs

/-- Model of Python `s.endswith(post)`. -/
def endsWithS (s post : String) : Bool :=
  startsWithL post.toList.reverse s.toList.reverse

/-- Does `hay` contain `needle` as a contiguous sublist? -/
def containsL (needle : List Char) : List Char → Bool
  | [] => needle.isEmpty
  | c :: cs => startsWithL needle (c :: cs) || containsL needle cs

/-- Model of Python `sub in s`. -/
def containsS (s sub : String) : Bool :=
  containsL sub.toList s.toList

/-- Numeric value of a list of decimal digit characters (most significant first). -/
def digitsToNat (l : List Char) : Nat :=
  l.foldl (fun n c => n * 10 + (c.toNat - 48)) 0

/-- Try to match the regex `/(\d+)x(\d+)/` at the head of `l`.  On success
returns `(width, height, consumed)` where `consumed` is the length of the whole
match including both slashes (Python `re` consumes the full match, and since
`\d+` is followed by a non-digit in the pattern only the maximal digit runs can
match). -/
def sizeSegAt (l : List Char) : Option (Nat × Nat × Nat) :=
  match l with
  | '/' :: rest =>
    let d1 := rest.takeWhile Char.isDigit
    if d1.isEmpty then none
    else
      match rest.drop d1.length with
      | 'x' :: r2 =>
        let d2 := r2.takeWhile Char.isDigit
        if d2.isEmpty then none
        else
          match r2.drop d2.length with
          | '/' :: _ => some (digitsToNat d1, digitsToNat d2, d1.length + d2.length + 3)
          | _ => none
      | _ => none
  | _ => none

/-- Model of `re.search(r'/(\d+)x(\d+)/', url)`: the first match scanning left
to right, returning the two captured groups as numbers. -/
def findSize : List Char → Option (Nat × Nat)
  | [] => none
  | c :: cs =>
    match sizeSegAt (c :: cs) with
    | some (w, h, _) => some (w, h)
    | none => findSize cs

/-- The replacement segment `'/originals/'`. -/
def originalsSeg : List Char := "/originals/".toList

/-- Fuelled worker for `re.sub(r'/\d+x\d+/', '/originals/', url)`: scan left to
right, replace each non-overlapping match and continue after it.  Each step
consumes at least one character, so `fuel = l.length` never runs out; the
`fuel = 0` branch is unreachable for that choice of fuel. -/
def subSizeAux : Nat → List Char → List Char
  | 0, l => l
  | _, [] => []
  | fuel + 1, c :: cs =>
    match sizeSegAt (c :: cs) with
    | some (_, _, n) => originalsSeg ++ subSizeAux fuel ((c :: cs).drop n)
    | none => c :: subSizeAux fuel cs

/-- Model of `re.sub(r'/\d+x\d+/', '/originals/', url)` — the rewrite of a
sized image URL to its `originals` (maximum-quality) variant. -/
def subSizeSegs (u : String) : String :=
  String.mk (subSizeAux u.toList.length u.toList)

/-- Characters after the last `'/'` of the list (Python `s.split('/')[-1]`). -/
def afterLastSlash (l : List Char) : List Char :=
  l.foldl (fun acc c => if c = '/' then [] else acc ++ [c]) []

/-- Model of `url.split('/')[-1].split('?')[0]` — the deduplication key
("base filename") used by `_clean_and_deduplicate_urls`. -/
def baseFilename (u : String) : String :=
  String.mk ((afterLastSlash u.toList).takeWhile (fun c => c ≠ '?'))

/-- Fuelled worker for Python `str.replace` (replace every non-overlapping
occurrence, scanning left to right). -/
def replaceAllAux (pat rep : List Char) : Nat → List Char → List Char
  | 0, l => l
  | _, [] => []
  | fuel + 1, c :: cs =>
    if !pat.isEmpty && startsWithL pat (c :: cs) then
      rep ++ replaceAllAux pat rep fuel ((c :: cs).drop pat.length)
    else
      c :: replaceAllAux pat rep fuel cs

/-- Model of Python `s.replace(pat, rep)`. -/
def replaceAllS (s pat rep : String) : String :=
  String.mk (replaceAllAux pat.toList rep.toList s.toList.length s.toList)

/-! ### URL normalizer (`PinterestService._clean_and_deduplicate_urls`)

Constants `MIN_IMAGE_RESOLUTION = 200 * 200` and the accepted image extensions
come from `src/constants.py` / the literal tuple in the Python source. -/

/-- `MIN_IMAGE_RESOLUTION` from `src/constants.py`. -/
def MIN_IMAGE_RESOLUTION : Nat := 200 * 200

/-- The extension whitelist of `_clean_and_deduplicate_urls`:
`url.endswith(('.jpg', '.jpeg', '.png', '.webp'))`. -/
def acceptedExt (u : String) : Bool :=
  endsWithS u ".jpg" || endsWithS u ".jpeg" || endsWithS u ".png" || endsWithS u ".webp"

/-- The resolution score of a URL as the spec defines it: width×height of the
embedded `/WxH/` size segment, `0` when the segment is absent. -/
def resScore (u : String) : Nat :=
  match findSize u.toList with
  | some (w, h) => w * h
  | none => 0

/-- First value bound to `k` in an insertion-ordered association list
(Python dict lookup; keys are unique in any list built by `setA`). -/
def lookupA {α : Type} : List (String × α) → String → Option α
  | [], _ => none
  | (k, v) :: rest, key => if k = key then some v else lookupA rest key

/-- Python `d[k] = v`: replace in place if the key exists (dicts keep the
original insertion position), else append. -/
def setA {α : Type} : List (String × α) → String → α → List (String × α)
  | [], key, v => [(key, v)]
  | (k, w) :: rest, key, v =>
    if k = key then (k, v) :: rest else (k, w) :: setA rest key v

/-- Python `del d[k]` (removes the key wherever it sits). -/
def eraseA {α : Type} (l : List (String × α)) (key : String) : List (String × α) :=
  l.filter (fun p => p.1 ≠ key)

/-- One iteration of the `for url in urls` loop of
`_clean_and_deduplicate_urls`: discard URLs without an accepted image
extension; rewrite the size segment to `/originals/`; take the base filename of
the rewritten URL as dedup key; if the original URL carries a `/WxH/` segment
and `W*H` is below the floor, discard; finally keep only the **first** URL seen
for each dedup key (`if base_filename not in seen_images`). -/
def cleanStep (minRes : Nat) (seen : List (String × String)) (url : String) :
    List (String × String) :=
  if acceptedExt url then
    let origUrl := subSizeSegs url
    let base := baseFilename origUrl
    match findSize url.toList with
    | some (w, h) =>
      if w * h < minRes then seen
      else if (lookupA seen base).isSome then seen else seen ++ [(base, origUrl)]
    | none =>
      if (lookupA seen base).isSome then seen else seen ++ [(base, origUrl)]
  else seen

/-- Model of `PinterestService._clean_and_deduplicate_urls`: the values of the
`seen_images` dict in insertion order. -/
def cleanAndDeduplicateUrls (urls : List String) (minRes : Nat) : List String :=
  (urls.foldl (cleanStep minRes) []).map Prod.snd

/-! ### Cache manager (`CacheManager` in `src/services/pinterest.py` and
`set_cache` / `get_cache` in `src/services/database.py`)

Time is a logical clock in seconds (`Nat`).  Cached values are modelled as
`Nat` payloads standing for the JSON blobs the service stores; Python
truthiness (`if cached:`) is modelled as `v ≠ 0`. -/

/-- The in-process tier: `CacheManager._cache` and `CacheManager._cache_times`
keyed by the already-computed cache key. -/
structure MemCache where
  cache : List (String × Nat)
  times : List (String × Nat)
deriving DecidableEq

/-- The empty in-process cache. -/
def MemCache.empty : MemCache := ⟨[], []⟩

/-- Stable ascending insertion by timestamp, modelling Python's stable
`sorted(keys, key=lambda k: cache_times[k])`. -/
def insertByTime (p : String × Nat) : List (String × Nat) → List (String × Nat)
  | [] => [p]
  | q :: qs => if q.2 ≤ p.2 then q :: insertByTime p qs else p :: q :: qs

/-- The size-management branch of `CacheManager.set`: drop the 100
oldest entries once the cache holds `_max_cache_size = 1000` entries. -/
def evictOldest (m : MemCache) : MemCache :=
  let oldest := ((m.times.foldl (fun acc p => insertByTime p acc) []).take 100).map Prod.fst
  ⟨oldest.foldl eraseA m.cache, oldest.foldl eraseA m.times⟩

/-- Model of `CacheManager.get(url, ttl)`: a hit iff the key is present and
`now - insertedAt < ttl` for the **ttl supplied at lookup time**; an expired
entry is deleted from both maps (lazy eviction).  Returns the result together
with the updated cache. -/
def cacheManagerGet (m : MemCache) (now : Nat) (key : String) (ttl : Nat) :
    Option Nat × MemCache :=
  match lookupA m.cache key with
  | none => (none, m)
  | some v =>
    if now - (lookupA m.times key).getD 0 < ttl then (some v, m)
    else (none, ⟨eraseA m.cache key, eraseA m.times key⟩)

/-- Model of `CacheManager.set(url, data)`: size management, then store the
value and its insertion time.  No per-entry TTL is recorded. -/
def cacheManagerSet (m : MemCache) (now : Nat) (key : String) (v : Nat) : MemCache :=
  let m1 := if 1000 ≤ m.cache.length then evictOldest m else m
  ⟨setA m1.cache key v, setA m1.times key now⟩

/-- A row of the persistent `cache` table (`value`, `expires_at`). -/
structure DbCacheEntry where
  value : Nat
  expiresAt : Nat
deriving DecidableEq

/-- Seconds per UTC day. -/
def secsPerDay : Nat := 86400

/-- Model of the SQL predicate `expires_at > CURRENT_TIMESTAMP` in
`DatabaseService.get_cache`.  `expires_at` was stored by `set_cache` as
`datetime.utcnow().isoformat()` (`YYYY-MM-DDTHH:MM:SS.ffffff`), while SQLite's
`CURRENT_TIMESTAMP` renders as `YYYY-MM-DD HH:MM:SS`; the comparison is TEXT
comparison.  The two equal-length date prefixes decide it when the dates
differ, and when the dates are equal the 11th character decides: `'T' > ' '`
always holds, so a same-day entry always compares as not yet expired.  With
time as seconds this is exactly a comparison of the UTC day numbers. -/
def sqlExpiresGtNow (expiresAt now : Nat) : Bool :=
  now / secsPerDay ≤ expiresAt / secsPerDay

/-- Model of `DatabaseService.set_cache(key, value, ttl)`:
`INSERT OR REPLACE` of `(key, value, now + ttl)`. -/
def setCache (db : List (String × DbCacheEntry)) (now : Nat) (key : String)
    (v : Nat) (ttl : Nat) : List (String × DbCacheEntry) :=
  setA db key ⟨v, now + ttl⟩

/-- Model of `DatabaseService.get_cache(key)`: select the row and return its
value when `expires_at > CURRENT_TIMESTAMP`; the lookup never deletes the row
(eviction lives in the separate `clear_expired_cache`). -/
def getCache (db : List (String × DbCacheEntry)) (now : Nat) (key : String) :
    Option Nat :=
  match lookupA db key with
  | some e => if sqlExpiresGtNow e.expiresAt now then some e.value else none
  | none => none

/-- Truthiness of an optional cached value (`if cached:`). -/
def truthy : Option Nat → Bool
  | some v => v != 0
  | none => false

/-- Model of `PinterestService._get_cached_data(cache_key, ttl)`: memory tier
first (with the lookup-supplied ttl, default `CACHE_TTL["pinterest_data"] =
1800`), then the persistent tier, repopulating the memory tier on a persistent
hit.  Returns the value (or `none`) and the updated memory tier. -/
def getCachedData (m : MemCache) (db : List (String × DbCacheEntry)) (now : Nat)
    (key : String) (ttl : Nat) : Option Nat × MemCache :=
  let r := cacheManagerGet m now key ttl
  if truthy r.1 then r
  else
    match getCache db now key with
    | some v => if v ≠ 0 then (some v, cacheManagerSet r.2 now key v) else (none, r.2)
    | none => (none, r.2)

/-- Model of `PinterestService._set_cached_data(cache_key, data, ttl)`: store
in the memory tier (no TTL recorded) and in the persistent tier with
`expires_at = now + ttl`. -/
def setCachedData (m : MemCache) (db : List (String × DbCacheEntry)) (now : Nat)
    (key : String) (v : Nat) (ttl : Nat) :
    MemCache × List (String × DbCacheEntry) :=
  (cacheManagerSet m now key v, setCache db now key v ttl)

/-! ### Retry / circuit breaker (`RetryMixin`)

`_circuit_breaker_threshold = 5`, `_circuit_breaker_timeout = 300`,
`MAX_RETRY_ATTEMPTS = 3`, `RETRY_DELAY_BASE = 1`.  The wrapped coroutine is
modelled as a map from attempt index to outcome; `time.time()` is frozen at
`now` for the duration of one `retry_with_backoff` call (attempts are treated
as instantaneous — no claim depends on intra-call clock drift). -/

/-- Mutable state of `RetryMixin`: `_failure_counts` and
`_last_failure_times`, each a dict from circuit key. -/
structure RetryState where
  failureCounts : String → Option Nat
  lastFailureTimes : String → Option Nat

/-- Pointwise dict update (`d[k] = v` / `del d[k]` for `v = none`). -/
def updateF (f : String → Option Nat) (k : String) (v : Option Nat) :
    String → Option Nat :=
  fun k2 => if k2 = k then v else f k2

/-- A `RetryState` with no recorded failures. -/
def RetryState.empty : RetryState := ⟨fun _ => none, fun _ => none⟩

/-- Model of `RetryMixin._is_circuit_open`: open iff the key has at least
`5` recorded failures and fewer than `300` seconds passed since the last one;
when the cool-down has elapsed the failure count is reset to `0` (and the call
proceeds).  Returns the flag together with the possibly-updated state. -/
def isCircuitOpen (s : RetryState) (now : Nat) (key : String) : Bool × RetryState :=
  match s.failureCounts key with
  | none => (false, s)
  | some fc =>
    if 5 ≤ fc then
      if now - (s.lastFailureTimes key).getD 0 < 300 then (true, s)
      else (false, { s with failureCounts := updateF s.failureCounts key (some 0) })
    else (false, s)

/-- Model of `RetryMixin._record_failure`. -/
def recordFailure (s : RetryState) (now : Nat) (key : String) : RetryState :=
  { failureCounts := updateF s.failureCounts key (some ((s.failureCounts key).getD 0 + 1)),
    lastFailureTimes := updateF s.lastFailureTimes key (some now) }

/-- Model of `RetryMixin._record_success`: both entries are deleted. -/
def recordSuccess (s : RetryState) (key : String) : RetryState :=
  { failureCounts := updateF s.failureCounts key none,
    lastFailureTimes := updateF s.lastFailureTimes key none }

/-- Outcome of one invocation of the wrapped coroutine: success, an exception
of the transient network class (`httpx.ConnectTimeout` / `ReadTimeout` /
`NetworkError`), or any other exception.  Exceptions carry an identity so that
"raised unchanged" is expressible. -/
inductive Outcome where
  | ok (v : Nat)
  | transient (e : Nat)
  | fatal (e : Nat)
deriving DecidableEq

/-- Result of one `retry_with_backoff` call. -/
inductive RetryResult where
  | ok (v : Nat)
  | circuitOpen
  | fatalErr (e : Nat)
  | transientErr (e : Nat)
  | invalidRaise
deriving DecidableEq

/-- Observable trace of one `retry_with_backoff` call: the result, the final
mixin state, how many times the wrapped coroutine was invoked (each invocation
is one unit of network I/O), and the back-off sleeps performed. -/
structure RunResult where
  res : RetryResult
  state : RetryState
  attempts : Nat
  sleeps : List Nat

/-- The attempt loop of `retry_with_backoff` (`for attempt in range(max_retries)`),
with `remaining` attempts left and `idx` the current attempt index.  A success
records success and returns; a non-transient exception records a failure and
propagates unchanged; a transient exception records a failure and, on the last
attempt (`attempt == max_retries - 1`), breaks to the post-loop code — which
records the failure **again** and re-raises the last exception unchanged —
otherwise sleeps `min(base_delay * 2**attempt, 60)` and retries.
`remaining = 0` at entry means `max_retries = 0`: the loop body never ran and
the post-loop `raise last_exception` raises `None` (`invalidRaise`). -/
def retryAux (op : Nat → Outcome) (base : Nat) (now : Nat) (key : String) :
    Nat → Nat → RetryState → RunResult
  | 0, _, s => { res := .invalidRaise, state := recordFailure s now key, attempts := 0, sleeps := [] }
  | remaining + 1, idx, s =>
    match op idx with
    | .ok v => { res := .ok v, state := recordSuccess s key, attempts := 1, sleeps := [] }
    | .fatal e => { res := .fatalErr e, state := recordFailure s now key, attempts := 1, sleeps := [] }
    | .transient e =>
      let s1 := recordFailure s now key
      if remaining = 0 then
        { res := .transientErr e, state := recordFailure s1 now key, attempts := 1, sleeps := [] }
      else
        let d := min (base * 2 ^ idx) 60
        let r := retryAux op base now key remaining (idx + 1) s1
        { r with attempts := r.attempts + 1, sleeps := d :: r.sleeps }

/-- Model of `RetryMixin.retry_with_backoff`: check the circuit breaker first
(raising `PinterestAPIException` — `circuitOpen` — without invoking the
coroutine), then run the attempt loop. -/
def retryWithBackoff (op : Nat → Outcome) (base : Nat) (now : Nat) (key : String)
    (maxRetries : Nat) (s : RetryState) : RunResult :=
  let c := isCircuitOpen s now key
  if c.1 then { res := .circuitOpen, state := c.2, attempts := 0, sleeps := [] }
  else retryAux op base now key maxRetries 0 c.2

/-! ### Video URL hunter (`PinterestService._find_best_video_url` /
`_recursive_search`)

The parsed JSON value is modelled as an untyped tree.  Dictionaries and lists
are encoded as cons-chains so that every function is structurally recursive
(and hence kernel-computable): `objCons k v tl` is the dict whose first entry
is `k ↦ v` followed by the entries of `tl`; `arrCons h tl` likewise for lists.
Scalars cover the shapes the walk distinguishes: strings, ints (Python `bool`
passes `isinstance(h, int)` and counts as `0`/`1`), and anything else
(`null`), which fails both `isinstance` checks. -/

/-- Untyped JSON tree with dicts and lists as cons-chains. -/
inductive JData where
  | str (s : String)
  | int (n : Int)
  | bool (b : Bool)
  | null
  | arrNil
  | arrCons (hd tl : JData)
  | objNil
  | objCons (k : String) (v : JData) (tl : JData)
deriving DecidableEq

/-- Dict lookup over an `objCons` chain (`'url' in item` / `item.get(k)`);
keys of a chain denoting a Python dict are unique. -/
def lookupKey (key : String) : JData → Option JData
  | .objCons k v tl => if k = key then some v else lookupKey key tl
  | _ => none

/-- One collected video candidate (`{'url': ..., 'height': ..., 'priority': ...}`). -/
structure VCand where
  url : String
  height : Int
  priority : Nat
deriving DecidableEq

/-- The priority classification of `_recursive_search`:
`url.endswith('.mp4')` → 2, `'.m3u8' in url` → 1, else 0 (ignored). -/
def classifyUrl (u : String) : Nat :=
  if endsWithS u ".mp4" then 2 else if containsS u ".m3u8" then 1 else 0

/-- `height = item.get('height', 0)` followed by `isinstance(height, int)`:
absent → `0`; an int (or bool, a Python int subclass) passes; any other shape
fails the check and the candidate is dropped. -/
def heightAt (d : JData) : Option Int :=
  match lookupKey "height" d with
  | none => some 0
  | some (.int n) => some n
  | some (.bool b) => some (if b then 1 else 0)
  | some _ => none

/-- The candidate (if any) contributed by one dict node: a string `'url'`
entry classified with positive priority, kept only when the associated height
is an int. -/
def hitOf (d : JData) : List VCand :=
  match lookupKey "url" d with
  | some (.str u) =>
    let pri := classifyUrl u
    if 0 < pri then
      match heightAt d with
      | some h => [⟨u, h, pri⟩]
      | none => []
    else []
  | _ => []

/-- Model of `_recursive_search`, accumulating candidates in traversal order.
`recursiveSearch true d` models a call of the Python function on the node `d`;
`recursiveSearch false d` models the continuation of the enclosing `for value
in item.values()` / `for i in item` loop over the remaining chain `d` of the
same dict/list (no fresh dict check there). -/
def recursiveSearch : Bool → JData → List VCand
  | fresh, .objCons k v tl =>
    (if fresh then hitOf (.objCons k v tl) else []) ++
      recursiveSearch true v ++ recursiveSearch false tl
  | _, .arrCons hd tl => recursiveSearch true hd ++ recursiveSearch false tl
  | _, _ => []

/-- Strict lexicographic comparison on `(priority, height)` — the sort key of
`videos_found.sort(key=lambda x: (x['priority'], x['height']), reverse=True)`. -/
def keyLt (a b : VCand) : Bool :=
  a.priority < b.priority || (a.priority == b.priority && a.height < b.height)

/-- First maximum of a candidate list under `keyLt`.  Python's `list.sort` is
stable and `reverse=True` keeps equal elements in first-seen order, so
`videos_found[0]` after the sort is exactly the first candidate that is
maximal in `(priority, height)` — which is what this fold computes. -/
def bestCand (l : List VCand) : Option VCand :=
  l.foldl
    (fun acc c =>
      match acc with
      | none => some c
      | some b => if keyLt b c then some c else some b)
    none

/-- Model of `PinterestService._find_best_video_url`. -/
def findBestVideoUrl (d : JData) : Option String :=
  (bestCand (recursiveSearch true d)).map VCand.url

/-! #### Depth-budgeted walk on trees

Python recursion consumes one interpreter stack frame per
`_recursive_search(value)` call; iterating the remaining entries of the same
dict/list happens inside the current frame.  `walkFuel fuel d` runs the same
walk with a recursion budget of `fuel` frames; `none` models the
`RecursionError` that exceeding the interpreter recursion limit raises
(aborting the whole walk — the partial candidate list is lost). -/

/-- The values over which the current frame iterates: `item.values()` for the
dict chain, the elements for the list chain, nothing for scalars. -/
def valuesChain : JData → List JData
  | .objCons _ v tl => v :: valuesChain tl
  | .arrCons hd tl => hd :: valuesChain tl
  | _ => []

/-- The hit contributed by the current frame (dict head check only). -/
def hitAt : JData → List VCand
  | .objCons k v tl => hitOf (.objCons k v tl)
  | _ => []

/-- Fuelled walk: one frame processes the node's hit and recurses into every
child value with one frame less; running out of frames is a `RecursionError`
(`none`), which propagates. -/
def walkFuel : Nat → JData → Option (List VCand)
  | 0, _ => none
  | fuel + 1, d =>
    (valuesChain d).foldr
      (fun v acc => do
        let x ← walkFuel fuel v
        let xs ← acc
        pure (x ++ xs))
      (some []) |>.map (fun xs => hitAt d ++ xs)

/-- The child walks of one frame, as a standalone function. -/
def walkList (fuel : Nat) (vs : List JData) : Option (List VCand) :=
  vs.foldr
    (fun v acc => do
      let x ← walkFuel fuel v
      let xs ← acc
      pure (x ++ xs))
    (some [])

/-- Nesting depth of a tree: the number of stack frames the walk needs beyond
the current one is `jdepth d` for each child chain value. -/
def jdepth : JData → Nat
  | .objCons _ v tl => max (1 + jdepth v) (jdepth tl)
  | .arrCons hd tl => max (1 + jdepth hd) (jdepth tl)
  | _ => 0

/-! #### The walk on the Python object graph

A Python value is in general a graph of heap objects and may be cyclic
(`d = {}; d['self'] = d`).  `GNode`/`gWalk` run the same recursion over an
explicit heap (node ids into a store), with the same per-frame budget. -/

/-- A heap node: a scalar, a list of child node ids, or a dict of named child
node ids. -/
inductive GNode where
  | strN (s : String)
  | intN (n : Int)
  | boolN (b : Bool)
  | nullN
  | arrN (elems : List Nat)
  | objN (fields : List (String × Nat))
deriving DecidableEq

/-- Dict-field lookup in a graph node's field list. -/
def lookupField : List (String × Nat) → String → Option Nat
  | [], _ => none
  | (k, v) :: rest, key => if k = key then some v else lookupField rest key

/-- The height check of `_recursive_search` on the graph: absent → 0, int or
bool ok, anything else fails `isinstance`. -/
def gHeightAt (heap : List GNode) (fields : List (String × Nat)) : Option Int :=
  match lookupField fields "height" with
  | none => some 0
  | some i =>
    match heap.get? i with
    | some (.intN n) => some n
    | some (.boolN b) => some (if b then 1 else 0)
    | _ => none

/-- The candidate contributed by one dict node of the graph. -/
def gHitOf (heap : List GNode) (fields : List (String × Nat)) : List VCand :=
  match lookupField fields "url" with
  | some i =>
    match heap.get? i with
    | some (.strN u) =>
      let pri := classifyUrl u
      if 0 < pri then
        match gHeightAt heap fields with
        | some h => [⟨u, h, pri⟩]
        | none => []
      else []
    | _ => []
  | none => []

/-- The same recursive walk over the object graph with a frame budget:
`none` models the `RecursionError` raised when the budget is exhausted.  A
dangling node id contributes nothing (a well-formed heap has none). -/
def gWalk (heap : List GNode) : Nat → Nat → Option (List VCand)
  | 0, _ => none
  | fuel + 1, i =>
    match heap.get? i with
    | some (.objN fields) =>
      (fields.map Prod.snd).foldr
        (fun j acc => do
          let x ← gWalk heap fuel j
          let xs ← acc
          pure (x ++ xs))
        (some []) |>.map (fun xs => gHitOf heap fields ++ xs)
    | some (.arrN elems) =>
      elems.foldr
        (fun j acc => do
          let x ← gWalk heap fuel j
          let xs ← acc
          pure (x ++ xs))
        (some [])
    | _ => some []

/-- The walk on heap node `i` terminates: some frame budget lets it complete. -/
def GWalkTerminates (heap : List GNode) (i : Nat) : Prop :=
  ∃ fuel r, gWalk heap fuel i = some r

/-- The one-node cyclic heap `d = {}; d['self'] = d`. -/
def cyclicHeap : List GNode := [GNode.objN [("self", 0)]]

/-! ### Extraction engine (`get_photo_data`, `get_video_data`,
`get_board_pins`, `_scrape_board_with_browser`)

The HTTP layer is abstracted to the data the Python code reads off it: the
response status, and the URL lists that `re.findall(URL_PATTERNS
["pinterest_image"], html)` and the metadata probes would produce.  With
`follow_redirects=True` httpx's `raise_for_status` raises `HTTPStatusError`
exactly for a non-2xx final status. -/

/-- Decidable equality of `Except` values, so that concrete runs of the
fallible operations can be checked by `decide`. -/
instance exceptDecEq {ε α : Type} [DecidableEq ε] [DecidableEq α] :
    DecidableEq (Except ε α)
  | .error x, .error y =>
    if h : x = y then .isTrue (by rw [h]) else .isFalse (fun hh => h (Except.error.inj hh))
  | .error _, .ok _ => .isFalse (fun hh => Except.noConfusion hh)
  | .ok _, .error _ => .isFalse (fun hh => Except.noConfusion hh)
  | .ok x, .ok y =>
    if h : x = y then .isTrue (by rw [h]) else .isFalse (fun hh => h (Except.ok.inj hh))

/-- Error classes surfaced by the service: `DeadLinkException`,
`PinterestAPIException` (non-404 HTTP error), and
`MediaProcessingException` (the `InvalidContent` class of the spec —
missing/invalid expected structure, and the wrapper applied by the final
`except Exception` clauses). -/
inductive PinErr where
  | deadLink
  | apiError (status : Nat)
  | mediaProcessing
deriving DecidableEq

/-- The result dict built for a single photo/video. -/
structure MediaResult where
  mediaUrl : String
  postUrl : String
  mediaType : String
deriving DecidableEq

/-- What `_fetch_photo` reads off the fetched document: the final HTTP status
and the `content` of the `og:image` meta tag if present. -/
structure PhotoPage where
  status : Nat
  ogImage : Option String
deriving DecidableEq

/-- Model of the `_fetch_photo` closure of `PinterestService.get_photo_data`:
non-2xx → `DeadLinkException` for 404, else `PinterestAPIException`; missing
image reference → `MediaProcessingException` (re-wrapped by the final
`except Exception`, same class); otherwise the `og:image` URL rewritten via
`.replace('/236x/', '/originals/').replace('/736x/', '/originals/')`. -/
def getPhotoData (url : String) (p : PhotoPage) : Except PinErr MediaResult :=
  if 200 ≤ p.status ∧ p.status < 300 then
    match p.ogImage with
    | none => .error .mediaProcessing
    | some img =>
      .ok { mediaUrl := replaceAllS (replaceAllS img "/236x/" "/originals/") "/736x/" "/originals/",
            postUrl := url, mediaType := "photo" }
  else if p.status = 404 then .error .deadLink
  else .error (.apiError p.status)

/-- What `_fetch_video` reads off the fetched document: the final status and
the `data-relay-response` script block — absent (`none`), present but not
valid JSON (`some none`), or parsed (`some (some d)`). -/
structure VideoPage where
  status : Nat
  relay : Option (Option JData)
deriving DecidableEq

/-- Model of the `_fetch_video` closure of `PinterestService.get_video_data`:
non-2xx → 404 `DeadLinkException` else `PinterestAPIException`; missing
script block, invalid JSON, or no playable URL found by the hunter →
`MediaProcessingException`. -/
def getVideoData (url : String) (p : VideoPage) : Except PinErr MediaResult :=
  if 200 ≤ p.status ∧ p.status < 300 then
    match p.relay with
    | none => .error .mediaProcessing
    | some none => .error .mediaProcessing
    | some (some d) =>
      match findBestVideoUrl d with
      | none => .error .mediaProcessing
      | some vu => .ok { mediaUrl := vu, postUrl := url, mediaType := "video" }
  else if p.status = 404 then .error .deadLink
  else .error (.apiError p.status)

/-- Model of `BoardFeedResource` pagination traffic: the `k`-th entry is the
`k`-th API response the while-loop would receive — `none` for a non-200 status
(the loop breaks), `some (urls, nb)` for the per-pin image URLs extracted by
`_extract_image_url` (the truthy ones) and the returned next bookmark. -/
abbrev ApiPages := List (Option (List String × Option String))

/-- Environment of one `get_board_pins` run: the landing fetch status, the
image URLs `re.findall` yields on the landing document, the `board_id` /
`bookmarks` regex probes (`some` iff both matched), the API traffic, and the
browser-fallback session (whether the network-idle wait met its 30s bound, and
the URLs `re.findall` would yield on the rendered document). -/
structure BoardEnv where
  status : Nat
  initialUrls : List String
  boardMeta : Option (String × String)
  pages : ApiPages
  browserQuiesced : Bool
  browserHtmlUrls : List String
deriving DecidableEq

/-- Python `set.add` on a set modelled as a duplicate-free list in insertion
order (claims about the returned list are order-independent). -/
def insertUrl (s : List String) (u : String) : List String :=
  if u ∈ s then s else s ++ [u]

/-- `set.update` with a list of URLs. -/
def insertAll (s : List String) (us : List String) : List String :=
  us.foldl insertUrl s

/-- The `while bookmark and bookmark != '-end-' and page_count < max_pages`
loop of `get_board_pins`: each successful page adds every extracted pin image
URL rewritten by `re.sub(r'/\d+x\d+/', '/originals/', ...)` straight into the
set (no extension/resolution/filename-dedup pass here), then advances the
bookmark; a non-200 response breaks. -/
def apiLoop : ApiPages → Option String → Nat → Nat → List String → List String
  | _, none, _, _, s => s
  | pages, some b, pageCount, maxPages, s =>
    if b = "" ∨ b = "-end-" ∨ maxPages ≤ pageCount then s
    else
      match pages with
      | [] => s
      | none :: _ => s
      | some (urls, nb) :: rest =>
        apiLoop rest nb (pageCount + 1) maxPages (insertAll s (urls.map subSizeSegs))

/-- The asset set accumulated before the browser-fallback check: the cleaned
landing URLs, then — when both `board_id` and an initial bookmark were found —
the API pagination with `max_pages = max_pins // 50`. -/
def afterApi (env : BoardEnv) (maxPins : Nat) : List String :=
  let s0 := insertAll [] (cleanAndDeduplicateUrls env.initialUrls MIN_IMAGE_RESOLUTION)
  match env.boardMeta with
  | none => s0
  | some (_, bm) => apiLoop env.pages (some bm) 0 (maxPins / 50) s0

/-- Model of `PinterestService._scrape_board_with_browser`: when the
`wait_for_load_state("networkidle", timeout=30000)` wait exceeds its bound,
the raised `TimeoutError` is caught by the blanket `except` and re-raised as
`BrowserException` — the rendered document is **not** scanned; otherwise the
document's URLs go through `_clean_and_deduplicate_urls`. -/
def scrapeBoardWithBrowser (quiesced : Bool) (htmlUrls : List String) :
    Except Unit (List String) :=
  if quiesced then .ok (cleanAndDeduplicateUrls htmlUrls MIN_IMAGE_RESOLUTION)
  else .error ()

/-- Model of the `_fetch_board` closure of `PinterestService.get_board_pins`:
landing fetch (non-2xx → 404 `DeadLinkException` else `PinterestAPIException`),
clean/dedup of the landing URLs, API pagination, browser fallback when fewer
than 10 assets were accumulated (a `BrowserException` there is swallowed by
the final `except Exception` and re-raised as `MediaProcessingException`),
`MediaProcessingException` when the set is still empty, else the set capped at
`max_pins` entries. -/
def getBoardPins (env : BoardEnv) (maxPins : Nat) : Except PinErr (List String) :=
  if 200 ≤ env.status ∧ env.status < 300 then
    let s := afterApi env maxPins
    let merged : Except PinErr (List String) :=
      if s.length < 10 then
        match scrapeBoardWithBrowser env.browserQuiesced env.browserHtmlUrls with
        | .ok us => .ok (insertAll s us)
        | .error _ => .error .mediaProcessing
      else .ok s
    match merged with
    | .error e => .error e
    | .ok s2 => if s2.isEmpty then .error .mediaProcessing else .ok (s2.take maxPins)
  else if env.status = 404 then .error .deadLink
  else .error (.apiError env.status)

/-! ### Concrete scenarios used by the claims -/

/-- The spec's Video-Hunter scenario: one direct-file reference at height 720
and one adaptive-stream manifest reference at height 1080, inside a list of
two dicts. -/
def scenarioData : JData :=
  .arrCons
    (.objCons "url" (.str "https://v.pinimg.com/720p/video.mp4")
      (.objCons "height" (.int 720) .objNil))
    (.arrCons
      (.objCons "url" (.str "https://v.pinimg.com/hls/stream.m3u8")
        (.objCons "height" (.int 1080) .objNil))
      .arrNil)

/-- A dict node whose `'url'` is a direct `.mp4` file but whose `'height'`
field is a string, so `isinstance(height, int)` fails. -/
def strHeightData : JData :=
  .objCons "url" (.str "https://v.pinimg.com/720p/video.mp4")
    (.objCons "height" (.str "720") .objNil)

/-- A board run in which the landing page and the pagination endpoint each
contribute one image with the same base filename `pic.jpg` but different
directories: the set keeps both full URLs, so the returned list carries two
entries with equal dedup key. -/
def envDupKeys : BoardEnv :=
  { status := 200
    initialUrls := ["https://i.pinimg.com/600x400/aa/pic.jpg"]
    boardMeta := some ("42", "abc")
    pages := [some (["https://i.pinimg.com/800x600/bb/pic.jpg"], some "-end-")]
    browserQuiesced := true
    browserHtmlUrls := [] }

/-- A board run whose fast paths find nothing and whose browser session fails
to reach network quiescence within the bound, although the partially rendered
document does contain a usable image URL. -/
def envBrowserTimeout : BoardEnv :=
  { status := 200
    initialUrls := []
    boardMeta := none
    pages := []
    browserQuiesced := false
    browserHtmlUrls := ["https://i.pinimg.com/236x236/aa/bb.jpg"] }

/-- A retry state with exactly the threshold number of failures on key `"k"`,
last failure at time 0. -/
def trippedState : RetryState :=
  { failureCounts := updateF (fun _ => none) "k" (some 5)
    lastFailureTimes := updateF (fun _ => none) "k" (some 0) }

/-! ## Theorems -/

/-! ### Retry / circuit-breaker lemmas -/

theorem recordFailure_count (s : RetryState) (now : Nat) (key : String) :
    (recordFailure s now key).failureCounts key =
      some ((s.failureCounts key).getD 0 + 1) := by
  simp [recordFailure, updateF]

theorem isCircuitOpen_of_count_lt (s : RetryState) (now : Nat) (key : String)
    (h : (s.failureCounts key).getD 0 < 5) :
    isCircuitOpen s now key = (false, s) := by
  unfold isCircuitOpen
  cases hc : s.failureCounts key with
  | none => rfl
  | some fc =>
    rw [hc] at h
    simp only [Option.getD_some] at h
    dsimp only
    rw [if_neg (show ¬ 5 ≤ fc by omega)]

theorem sleepsShift (base idx m : Nat) :
    min (base * 2 ^ idx) 60 ::
        (List.range m).map (fun a => min (base * 2 ^ (idx + 1 + a)) 60) =
      (List.range (m + 1)).map (fun a => min (base * 2 ^ (idx + a)) 60) := by
  rw [List.range_succ_eq_map, List.map_cons, List.map_map]
  refine List.cons_eq_cons.mpr ⟨by simp, ?_⟩
  apply List.map_congr_left
  intro a _
  simp only [Function.comp_apply]
  show min (base * 2 ^ (idx + 1 + a)) 60 = min (base * 2 ^ (idx + (a + 1))) 60
  have e : idx + 1 + a = idx + (a + 1) := by omega
  rw [e]

theorem retryAux_transient (op : Nat → Outcome) (err : Nat → Nat) (base now : Nat)
    (key : String) :
    ∀ (n idx : Nat) (s : RetryState),
      (∀ i, idx ≤ i → i < idx + (n + 1) → op i = .transient (err i)) →
      (retryAux op base now key (n + 1) idx s).res = .transientErr (err (idx + n)) ∧
      (retryAux op base now key (n + 1) idx s).attempts = n + 1 ∧
      (retryAux op base now key (n + 1) idx s).sleeps =
        (List.range n).map (fun a => min (base * 2 ^ (idx + a)) 60) ∧
      (retryAux op base now key (n + 1) idx s).state.failureCounts key =
        some ((s.failureCounts key).getD 0 + (n + 2)) := by
  intro n
  induction n with
  | zero =>
    intro idx s h
    have h0 : op idx = .transient (err idx) := h idx (le_refl idx) (by omega)
    refine ⟨?_, ?_, ?_, ?_⟩ <;>
      simp [retryAux, h0, recordFailure, updateF]
  | succ m ih =>
    intro idx s h
    have h0 : op idx = .transient (err idx) := h idx (le_refl idx) (by omega)
    have hrec := ih (idx + 1) (recordFailure s now key)
      (fun i h1 h2 => h i (by omega) (by omega))
    obtain ⟨hres, hatt, hsl, hcnt⟩ := hrec
    have hunfold :
        retryAux op base now key (m + 1 + 1) idx s =
          { res := (retryAux op base now key (m + 1) (idx + 1) (recordFailure s now key)).res,
            state := (retryAux op base now key (m + 1) (idx + 1) (recordFailure s now key)).state,
            attempts := (retryAux op base now key (m + 1) (idx + 1) (recordFailure s now key)).attempts + 1,
            sleeps := min (base * 2 ^ idx) 60 ::
              (retryAux op base now key (m + 1) (idx + 1) (recordFailure s now key)).sleeps } := by
      simp [retryAux, h0]
    rw [hunfold]
    refine ⟨?_, ?_, ?_, ?_⟩
    · rw [hres]
      have : idx + 1 + m = idx + (m + 1) := by omega
      rw [this]
    · simp [hatt]
    · rw [hsl]
      exact sleepsShift base idx m
    · rw [recordFailure_count] at hcnt
      simp only [Option.getD_some] at hcnt
      rw [hcnt]
      congr 1
      omega

theorem retryAux_fatal (op : Nat → Outcome) (err : Nat → Nat) (f : Nat)
    (base now : Nat) (key : String) :
    ∀ (j remaining idx : Nat) (s : RetryState),
      j < remaining →
      (∀ i, idx ≤ i → i < idx + j → op i = .transient (err i)) →
      op (idx + j) = .fatal f →
      (retryAux op base now key remaining idx s).res = .fatalErr f ∧
      (retryAux op base now key remaining idx s).attempts = j + 1 ∧
      (retryAux op base now key remaining idx s).sleeps =
        (List.range j).map (fun a => min (base * 2 ^ (idx + a)) 60) := by
  intro j
  induction j with
  | zero =>
    intro remaining idx s hlt _ hf
    obtain ⟨r, rfl⟩ : ∃ r, remaining = r + 1 := ⟨remaining - 1, by omega⟩
    rw [Nat.add_zero] at hf
    refine ⟨?_, ?_, ?_⟩ <;> simp [retryAux, hf]
  | succ m ih =>
    intro remaining idx s hlt htr hf
    obtain ⟨r, rfl⟩ : ∃ r, remaining = r + 1 := ⟨remaining - 1, by omega⟩
    have h0 : op idx = .transient (err idx) := htr idx (le_refl idx) (by omega)
    have hr : r ≠ 0 := by omega
    have hf2 : op (idx + 1 + m) = .fatal f := by
      have e : idx + 1 + m = idx + (m + 1) := by omega
      rw [e]
      exact hf
    have hrec := ih r (idx + 1) (recordFailure s now key) (by omega)
      (fun i h1 h2 => htr i (by omega) (by omega)) hf2
    obtain ⟨hres, hatt, hsl⟩ := hrec
    have hunfold :
        retryAux op base now key (r + 1) idx s =
          { res := (retryAux op base now key r (idx + 1) (recordFailure s now key)).res,
            state := (retryAux op base now key r (idx + 1) (recordFailure s now key)).state,
            attempts := (retryAux op base now key r (idx + 1) (recordFailure s now key)).attempts + 1,
            sleeps := min (base * 2 ^ idx) 60 ::
              (retryAux op base now key r (idx + 1) (recordFailure s now key)).sleeps } := by
      obtain ⟨r2, rfl⟩ : ∃ r2, r = r2 + 1 := ⟨r - 1, by omega⟩
      simp [retryAux, h0]
    rw [hunfold]
    refine ⟨hres, by simp [hatt], ?_⟩
    rw [hsl]
    exact sleepsShift base idx m

theorem retryWithBackoff_closed (op : Nat → Outcome) (base now : Nat) (key : String)
    (maxRetries : Nat) (s : RetryState) (h : (isCircuitOpen s now key).1 = false) :
    retryWithBackoff op base now key maxRetries s =
      retryAux op base now key maxRetries 0 (isCircuitOpen s now key).2 := by
  unfold retryWithBackoff
  rw [if_neg (by simp [h])]

/-! ### Claim C1 -/

/-- **C1.** For every circuit key, once the consecutive-failure count has
reached the threshold (5), a call through `retry_with_backoff` made while the
cool-down (300 s) has not elapsed fails immediately with the circuit-open
error and performs zero invocations of the wrapped operation (no network
I/O); once the cool-down has elapsed the next call is attempted (half-open),
and a single success fully resets the circuit to closed (both the failure
count and the last-failure time are deleted). -/
theorem C1_circuit_open_fail_fast_then_half_open_close
    (s : RetryState) (key : String) (fc lf now1 now2 : Nat)
    (op : Nat → Outcome) (base maxRetries v : Nat)
    (hfc : s.failureCounts key = some fc) (hthr : 5 ≤ fc)
    (hlf : s.lastFailureTimes key = some lf) :
    (now1 - lf < 300 →
      (retryWithBackoff op base now1 key maxRetries s).res = .circuitOpen ∧
      (retryWithBackoff op base now1 key maxRetries s).attempts = 0) ∧
    (300 ≤ now2 - lf → 1 ≤ maxRetries → op 0 = .ok v →
      (retryWithBackoff op base now2 key maxRetries s).res = .ok v ∧
      (retryWithBackoff op base now2 key maxRetries s).attempts = 1 ∧
      (retryWithBackoff op base now2 key maxRetries s).state.failureCounts key = none ∧
      (retryWithBackoff op base now2 key maxRetries s).state.lastFailureTimes key = none) := by
  constructor
  · intro ht
    have hopen : isCircuitOpen s now1 key = (true, s) := by
      unfold isCircuitOpen
      rw [hfc, hlf]
      dsimp only [Option.getD_some]
      rw [if_pos hthr, if_pos (by omega)]
    simp [retryWithBackoff, hopen]
  · intro ht hm hop
    have hopen : isCircuitOpen s now2 key =
        (false, { s with failureCounts := updateF s.failureCounts key (some 0) }) := by
      unfold isCircuitOpen
      rw [hfc, hlf]
      dsimp only [Option.getD_some]
      rw [if_pos hthr, if_neg (by omega)]
    obtain ⟨m, rfl⟩ : ∃ m, maxRetries = m + 1 := ⟨maxRetries - 1, by omega⟩
    simp [retryWithBackoff, hopen, retryAux, hop, recordSuccess, updateF]

/-- Witness for C1: a circuit with 5 failures on `"k"` recorded at time 0 fails
fast at time 100 without attempting the operation, and at time 400 (cool-down
elapsed) the operation is attempted once, succeeds, and fully closes the
circuit. -/
theorem C1_witness :
    (retryWithBackoff (fun _ => .ok 7) 1 100 "k" 3 trippedState).res = .circuitOpen ∧
    (retryWithBackoff (fun _ => .ok 7) 1 100 "k" 3 trippedState).attempts = 0 ∧
    (retryWithBackoff (fun _ => .ok 7) 1 400 "k" 3 trippedState).res = .ok 7 ∧
    (retryWithBackoff (fun _ => .ok 7) 1 400 "k" 3 trippedState).attempts = 1 ∧
    (retryWithBackoff (fun _ => .ok 7) 1 400 "k" 3 trippedState).state.failureCounts "k" = none ∧
    (retryWithBackoff (fun _ => .ok 7) 1 400 "k" 3 trippedState).state.lastFailureTimes "k" = none := by
  have h := C1_circuit_open_fail_fast_then_half_open_close trippedState "k" 5 0 100 400
    (fun _ => .ok 7) 1 3 7 (by decide) (by decide) (by decide)
  have h1 := h.1 (by decide)
  have h2 := h.2 (by decide) (by decide) (by decide)
  exact ⟨h1.1, h1.2, h2.1, h2.2.1, h2.2.2.1, h2.2.2.2⟩

/-! ### Claim C4 -/

/-- **C4.** `retry_with_backoff` (with the circuit closed) retries only
transient network errors: when every attempt fails transiently it makes
exactly `maxRetries` attempts (so it retries at most `maxRetries` times),
sleeping `min(baseDelay * 2^attempt, 60)` between consecutive attempts, and
surfaces the **last** underlying transient fault unchanged; an error of any
other class is propagated unchanged after the attempt that raised it, with no
further attempt and no back-off sleep after it. -/
theorem C4_retry_policy :
    (∀ (op : Nat → Outcome) (err : Nat → Nat) (base now : Nat) (key : String)
        (maxRetries : Nat) (s : RetryState),
      1 ≤ maxRetries →
      (isCircuitOpen s now key).1 = false →
      (∀ i, i < maxRetries → op i = .transient (err i)) →
      (retryWithBackoff op base now key maxRetries s).res =
          .transientErr (err (maxRetries - 1)) ∧
      (retryWithBackoff op base now key maxRetries s).attempts = maxRetries ∧
      (retryWithBackoff op base now key maxRetries s).sleeps =
        (List.range (maxRetries - 1)).map (fun a => min (base * 2 ^ a) 60)) ∧
    (∀ (op : Nat → Outcome) (err : Nat → Nat) (f base now : Nat) (key : String)
        (maxRetries j : Nat) (s : RetryState),
      j < maxRetries →
      (isCircuitOpen s now key).1 = false →
      (∀ i, i < j → op i = .transient (err i)) →
      op j = .fatal f →
      (retryWithBackoff op base now key maxRetries s).res = .fatalErr f ∧
      (retryWithBackoff op base now key maxRetries s).attempts = j + 1 ∧
      (retryWithBackoff op base now key maxRetries s).sleeps =
        (List.range j).map (fun a => min (base * 2 ^ a) 60)) := by
  constructor
  · intro op err base now key maxRetries s h1 hopen htr
    obtain ⟨n, rfl⟩ : ∃ n, maxRetries = n + 1 := ⟨maxRetries - 1, by omega⟩
    rw [retryWithBackoff_closed op base now key (n + 1) s hopen]
    have h := retryAux_transient op err base now key n 0 (isCircuitOpen s now key).2
      (fun i hi1 hi2 => htr i (by omega))
    refine ⟨?_, ?_, ?_⟩
    · rw [h.1]
      norm_num
    · simpa using h.2.1
    · rw [h.2.2.1]
      simp only [Nat.add_sub_cancel]
      apply List.map_congr_left
      intro a _
      norm_num
  · intro op err f base now key maxRetries j s hj hopen htr hf
    rw [retryWithBackoff_closed op base now key maxRetries s hopen]
    have h := retryAux_fatal op err f base now key j maxRetries 0
      (isCircuitOpen s now key).2 hj (fun i hi1 hi2 => htr i (by omega))
      (by simpa using hf)
    refine ⟨h.1, h.2.1, ?_⟩
    rw [h.2.2]
    apply List.map_congr_left
    intro a _
    norm_num

/-- Witness for C4: with a closed circuit, three transient failures surface the
third fault (id 12) unchanged after sleeps `[1, 2]`; and a run whose second
attempt raises a non-transient fault (id 9) stops after 2 attempts with that
fault, having slept once. -/
theorem C4_witness :
    (retryWithBackoff (fun i => .transient (10 + i)) 1 0 "k" 3 RetryState.empty).res =
        .transientErr 12 ∧
    (retryWithBackoff (fun i => .transient (10 + i)) 1 0 "k" 3 RetryState.empty).attempts = 3 ∧
    (retryWithBackoff (fun i => .transient (10 + i)) 1 0 "k" 3 RetryState.empty).sleeps = [1, 2] ∧
    (retryWithBackoff (fun i => if i = 0 then .transient 5 else .fatal 9) 1 0 "k" 3
        RetryState.empty).res = .fatalErr 9 ∧
    (retryWithBackoff (fun i => if i = 0 then .transient 5 else .fatal 9) 1 0 "k" 3
        RetryState.empty).attempts = 2 ∧
    (retryWithBackoff (fun i => if i = 0 then .transient 5 else .fatal 9) 1 0 "k" 3
        RetryState.empty).sleeps = [1] := by
  have h1 := C4_retry_policy.1 (fun i => .transient (10 + i)) (fun i => 10 + i) 1 0 "k" 3
    RetryState.empty (by decide) (by decide) (fun i _ => rfl)
  have h2 := C4_retry_policy.2 (fun i => if i = 0 then .transient 5 else .fatal 9)
    (fun _ => 5) 9 1 0 "k" 3 1 RetryState.empty (by decide) (by decide)
    (by decide) (by decide)
  refine ⟨h1.1, h1.2.1, ?_, h2.1, h2.2.1, ?_⟩
  · rw [h1.2.2]
    decide
  · rw [h2.2.2]
    decide

/-! ### Claim C10 -/

/-- **C10.** When a call through `retry_with_backoff` starts with the circuit
closed (failure count below the threshold) and every one of its `maxRetries`
attempts fails with a transient network error, the key's failure count grows
by exactly `maxRetries + 1`: each attempt records one failure inside the loop
and the post-loop code records the final failure a second time, so the call
contributes one more recorded failure than it made attempts. -/
theorem C10_exhausted_call_records_attempts_plus_one
    (op : Nat → Outcome) (err : Nat → Nat) (base now : Nat) (key : String)
    (maxRetries : Nat) (s : RetryState)
    (h1 : 1 ≤ maxRetries)
    (hclosed : (s.failureCounts key).getD 0 < 5)
    (htr : ∀ i, i < maxRetries → op i = .transient (err i)) :
    (retryWithBackoff op base now key maxRetries s).state.failureCounts key =
      some ((s.failureCounts key).getD 0 + (maxRetries + 1)) ∧
    (retryWithBackoff op base now key maxRetries s).attempts = maxRetries := by
  obtain ⟨n, rfl⟩ : ∃ n, maxRetries = n + 1 := ⟨maxRetries - 1, by omega⟩
  have hopen := isCircuitOpen_of_count_lt s now key hclosed
  rw [retryWithBackoff_closed op base now key (n + 1) s (by rw [hopen])]
  rw [hopen]
  have h := retryAux_transient op err base now key n 0 s
    (fun i hi1 hi2 => htr i (by omega))
  refine ⟨?_, h.2.1⟩
  rw [h.2.2.2]

/-- Witness for C10: three attempts, all transient, against an empty state:
the failure count for `"k"` ends at `4 = 3 + 1` while only 3 attempts were
made. -/
theorem C10_witness :
    (retryWithBackoff (fun i => .transient (20 + i)) 1 0 "k" 3
        RetryState.empty).state.failureCounts "k" = some 4 ∧
    (retryWithBackoff (fun i => .transient (20 + i)) 1 0 "k" 3
        RetryState.empty).attempts = 3 := by
  have h := C10_exhausted_call_records_attempts_plus_one
    (fun i => .transient (20 + i)) (fun i => 20 + i) 1 0 "k" 3 RetryState.empty
    (by decide) (by decide) (fun i _ => rfl)
  exact ⟨h.1, h.2⟩

/-! ### Cache lemmas -/

theorem lookupA_setA_self {α : Type} (l : List (String × α)) (k : String) (v : α) :
    lookupA (setA l k v) k = some v := by
  induction l with
  | nil => simp [setA, lookupA]
  | cons p rest ih =>
    obtain ⟨k1, w⟩ := p
    by_cases h : k1 = k
    · simp [setA, lookupA, h]
    · simp [setA, lookupA, h, ih]

theorem lookupA_eraseA_self {α : Type} (l : List (String × α)) (k : String) :
    lookupA (eraseA l k) k = none := by
  induction l with
  | nil => rfl
  | cons p rest ih =>
    obtain ⟨k1, w⟩ := p
    by_cases h : k1 = k
    · simpa [eraseA, h] using ih
    · simpa [eraseA, lookupA, h] using ih

/-! ### Claim C3 -/

/-- **C3** (amended).  A `get` performed immediately after
`set(key, v, ttl)` returns `v` for any truthy value and any positive lookup
TTL (the in-process tier was just written, so its age is 0).  The in-process
tier judges expiry against the TTL supplied **at lookup time**, not the ttl
given at `set`: a lookup that finds `now - insertedAt ≥ lookupTtl` misses and
lazily evicts the entry.  The persistent tier stores `expires_at = insertedAt
+ ttl` but compares it with `CURRENT_TIMESTAMP` as text in two different
formats, so an entry is only treated as expired once the expiry UTC **date**
has passed; a persistent-tier hit always satisfies `nowDay ≤ expiryDay`, and
persistent-tier lookups never evict (`getCache` does not modify the store). -/
theorem C3_cache_two_tier_semantics :
    (∀ (m : MemCache) (db : List (String × DbCacheEntry)) (now : Nat) (key : String)
        (v ttl getTtl : Nat), v ≠ 0 → 0 < getTtl →
      (getCachedData (setCachedData m db now key v ttl).1
          (setCachedData m db now key v ttl).2 now key getTtl).1 = some v) ∧
    (∀ (m : MemCache) (now : Nat) (key : String) (ttl v : Nat),
      lookupA m.cache key = some v →
      ttl ≤ now - (lookupA m.times key).getD 0 →
      (cacheManagerGet m now key ttl).1 = none ∧
      lookupA (cacheManagerGet m now key ttl).2.cache key = none) ∧
    (∀ (db : List (String × DbCacheEntry)) (now : Nat) (key : String) (e : DbCacheEntry),
      lookupA db key = some e →
      e.expiresAt / secsPerDay < now / secsPerDay →
      getCache db now key = none) ∧
    (∀ (db : List (String × DbCacheEntry)) (now : Nat) (key : String) (v : Nat),
      getCache db now key = some v →
      ∃ e, lookupA db key = some e ∧ e.value = v ∧
        now / secsPerDay ≤ e.expiresAt / secsPerDay) := by
  refine ⟨?_, ?_, ?_, ?_⟩
  · intro m db now key v ttl getTtl hv hg
    unfold getCachedData setCachedData cacheManagerSet cacheManagerGet
    simp only [lookupA_setA_self, Option.getD_some, Nat.sub_self]
    rw [if_pos hg]
    simp [truthy, hv]
  · intro m now key ttl v hm hexp
    unfold cacheManagerGet
    rw [hm]
    dsimp only
    rw [if_neg (by omega)]
    exact ⟨rfl, lookupA_eraseA_self m.cache key⟩
  · intro db now key e he hlt
    have hff : sqlExpiresGtNow e.expiresAt now = false := by
      simp only [sqlExpiresGtNow, decide_eq_false_iff_not]
      omega
    unfold getCache
    rw [he]
    dsimp only
    simp [hff]
  · intro db now key v hget
    unfold getCache at hget
    cases he : lookupA db key with
    | none => rw [he] at hget; exact absurd hget (by simp)
    | some e =>
      rw [he] at hget
      dsimp only at hget
      by_cases hc : sqlExpiresGtNow e.expiresAt now = true
      · rw [if_pos hc] at hget
        refine ⟨e, rfl, Option.some.inj hget, ?_⟩
        simpa [sqlExpiresGtNow] using hc
      · rw [if_neg hc] at hget
        exact absurd hget (by simp)

/-- Counterexample to C3 as stated: `set("k", 7, ttl := 1)` at time 0 followed
by a `get` at time 100 — far beyond `insertedAt + ttl` — still returns `7`
(the in-process tier evaluates freshness against the default lookup TTL of
1800 s, and the persistent tier treats a same-day expiry as unexpired), so an
expired entry **is** returned. -/
theorem C3_counterexample :
    (getCachedData (setCachedData MemCache.empty [] 0 "k" 7 1).1
        (setCachedData MemCache.empty [] 0 "k" 7 1).2 100 "k" 1800).1 = some 7 ∧
    0 + 1 < 100 :=
  ⟨by decide, by decide⟩

/-- Witness for C3: the amended theorem applied at concrete inputs — an
immediate hit after `set`, an expired in-process lookup that misses and
evicts, a persistent lookup one full day past expiry that misses, and a
persistent hit whose expiry date has not passed. -/
theorem C3_witness :
    (getCachedData (setCachedData MemCache.empty [] 5 "k" 3 60).1
        (setCachedData MemCache.empty [] 5 "k" 3 60).2 5 "k" 1800).1 = some 3 ∧
    (cacheManagerGet ⟨[("k", 3)], [("k", 0)]⟩ 10 "k" 10).1 = none ∧
    lookupA (cacheManagerGet ⟨[("k", 3)], [("k", 0)]⟩ 10 "k" 10).2.cache "k" = none ∧
    getCache [("k", ⟨3, 10⟩)] (2 * 86400) "k" = none ∧
    (∃ e, lookupA [("k", (⟨3, 86400 * 3⟩ : DbCacheEntry))] "k" = some e ∧ e.value = 3 ∧
      (86400 * 2) / secsPerDay ≤ e.expiresAt / secsPerDay) := by
  have h2 := C3_cache_two_tier_semantics.2.1 ⟨[("k", 3)], [("k", 0)]⟩ 10 "k" 10 3
    (by decide) (by decide)
  refine ⟨C3_cache_two_tier_semantics.1 MemCache.empty [] 5 "k" 3 60 1800
      (by decide) (by decide), h2.1, h2.2, ?_, ?_⟩
  · exact C3_cache_two_tier_semantics.2.2.1 [("k", ⟨3, 10⟩)] (2 * 86400) "k" ⟨3, 10⟩
      (by decide) (by decide)
  · exact C3_cache_two_tier_semantics.2.2.2 [("k", ⟨3, 86400 * 3⟩)] (86400 * 2) "k" 3
      (by decide)

/-! ### Video hunter lemmas -/

theorem keyLt_prop (a b : VCand) :
    keyLt a b = true ↔
      (a.priority < b.priority ∨ (a.priority = b.priority ∧ a.height < b.height)) := by
  simp [keyLt, Bool.or_eq_true, Bool.and_eq_true, beq_iff_eq, decide_eq_true_eq]

theorem keyLt_false (a b : VCand) :
    keyLt a b = false ↔
      ¬(a.priority < b.priority ∨ (a.priority = b.priority ∧ a.height < b.height)) := by
  rw [← keyLt_prop]
  simp

theorem keyLt_irrefl (a : VCand) : keyLt a a = false := by
  rw [keyLt_false]
  omega

theorem keyLt_chain1 {a b c : VCand} (h1 : keyLt a c = true) (h2 : keyLt b c = false) :
    keyLt b a = false := by
  rw [keyLt_prop] at h1
  rw [keyLt_false] at h2 ⊢
  omega

theorem keyLt_chain2 {a b c : VCand} (h1 : keyLt a c = false) (h2 : keyLt b a = false) :
    keyLt b c = false := by
  rw [keyLt_false] at h1 h2 ⊢
  omega

theorem bestCand_go_spec (l : List VCand) :
    ∀ (a b : VCand),
      l.foldl
        (fun acc c =>
          match acc with
          | none => some c
          | some b => if keyLt b c then some c else some b)
        (some a) = some b →
      (b = a ∨ b ∈ l) ∧ keyLt b a = false ∧ ∀ c ∈ l, keyLt b c = false := by
  induction l with
  | nil =>
    intro a b h
    simp only [List.foldl_nil, Option.some.injEq] at h
    subst h
    exact ⟨Or.inl rfl, keyLt_irrefl _, by simp⟩
  | cons c cs ih =>
    intro a b h
    simp only [List.foldl_cons] at h
    cases hac : keyLt a c with
    | true =>
      rw [hac] at h
      simp only [if_pos rfl] at h
      obtain ⟨hm, hlt, hall⟩ := ih c b h
      have hmem : b ∈ c :: cs := by
        rcases hm with rfl | hm2
        · simp
        · simp [hm2]
      refine ⟨Or.inr hmem, keyLt_chain1 hac hlt, ?_⟩
      intro x hx
      rcases List.mem_cons.mp hx with rfl | hx2
      · exact hlt
      · exact hall x hx2
    | false =>
      rw [hac] at h
      simp only [Bool.false_eq_true, if_false] at h
      obtain ⟨hm, hlt, hall⟩ := ih a b h
      have hmem : b = a ∨ b ∈ c :: cs := by
        rcases hm with rfl | hm2
        · exact Or.inl rfl
        · exact Or.inr (by simp [hm2])
      refine ⟨hmem, hlt, ?_⟩
      intro x hx
      rcases List.mem_cons.mp hx with rfl | hx2
      · exact keyLt_chain2 hac hlt
      · exact hall x hx2

theorem bestCand_go_isSome (l : List VCand) :
    ∀ a : VCand,
      ∃ b, l.foldl
        (fun acc c =>
          match acc with
          | none => some c
          | some b => if keyLt b c then some c else some b)
        (some a) = some b := by
  induction l with
  | nil => intro a; exact ⟨a, rfl⟩
  | cons c cs ih =>
    intro a
    simp only [List.foldl_cons]
    cases hac : keyLt a c with
    | true => simpa [hac] using ih c
    | false => simpa [hac] using ih a

theorem bestCand_spec (l : List VCand) (b : VCand) (h : bestCand l = some b) :
    b ∈ l ∧ ∀ c ∈ l, keyLt b c = false := by
  cases l with
  | nil => exact absurd h (by simp [bestCand])
  | cons c cs =>
    unfold bestCand at h
    simp only [List.foldl_cons] at h
    obtain ⟨hm, hlt, hall⟩ := bestCand_go_spec cs c b h
    have hmem : b ∈ c :: cs := by
      rcases hm with rfl | hm2
      · simp
      · simp [hm2]
    refine ⟨hmem, ?_⟩
    intro x hx
    rcases List.mem_cons.mp hx with rfl | hx2
    · exact hlt
    · exact hall x hx2

theorem bestCand_none_iff (l : List VCand) : bestCand l = none ↔ l = [] := by
  cases l with
  | nil => simp [bestCand]
  | cons c cs =>
    simp only [bestCand, List.foldl_cons]
    obtain ⟨b, hb⟩ := bestCand_go_isSome cs c
    constructor
    · intro h
      rw [hb] at h
      exact absurd h (by simp)
    · intro h
      exact absurd h (by simp)

/-! ### Claim C5 -/

/-- **C5** (amended).  The hunter returns `none` exactly when its walk collects
no candidate — a candidate being a string `'url'` field classified as a direct
`.mp4` file (priority 2) or an `.m3u8` manifest (priority 1) **whose
associated `'height'` value passes the `isinstance(int)` check** (absent
counting as 0; entries with a non-integer height are skipped, which the claim
as stated overlooks).  When a candidate exists, the returned URL belongs to a
collected candidate that is maximal under the lexicographic `(priority,
height)` order (the first such, by sort stability); in particular, on the
spec's scenario of a direct file at height 720 and a manifest at height 1080,
the direct `.mp4` reference is selected. -/
theorem C5_video_hunter_selection :
    (∀ d : JData, findBestVideoUrl d = none ↔ recursiveSearch true d = []) ∧
    (∀ (d : JData) (u : String), findBestVideoUrl d = some u →
      ∃ c, c ∈ recursiveSearch true d ∧ c.url = u ∧
        ∀ c2 ∈ recursiveSearch true d, keyLt c c2 = false) ∧
    findBestVideoUrl scenarioData = some "https://v.pinimg.com/720p/video.mp4" := by
  refine ⟨?_, ?_, by decide⟩
  · intro d
    unfold findBestVideoUrl
    rw [Option.map_eq_none']
    exact bestCand_none_iff _
  · intro d u h
    unfold findBestVideoUrl at h
    cases hb : bestCand (recursiveSearch true d) with
    | none => rw [hb] at h; exact absurd h (by simp)
    | some c =>
      rw [hb] at h
      obtain ⟨hmem, hall⟩ := bestCand_spec _ c hb
      exact ⟨c, hmem, by simpa using h, hall⟩

/-- Counterexample to C5 as stated: a single dict carrying a direct-file
`.mp4` URL (classified priority 2) whose `'height'` field is the **string**
`"720"`: the claim says this URL is collected and returned, but the code's
`isinstance(height, int)` check drops the entry and the hunter returns
`none`. -/
theorem C5_counterexample :
    findBestVideoUrl strHeightData = none ∧
    classifyUrl "https://v.pinimg.com/720p/video.mp4" = 2 :=
  ⟨by decide, by decide⟩

/-- Witness for C5: the selection property instantiated on the spec scenario —
the chosen candidate is the `.mp4` at height 720 and dominates every collected
candidate. -/
theorem C5_witness :
    ∃ c, c ∈ recursiveSearch true scenarioData ∧
      c.url = "https://v.pinimg.com/720p/video.mp4" ∧
      ∀ c2 ∈ recursiveSearch true scenarioData, keyLt c c2 = false :=
  C5_video_hunter_selection.2.1 scenarioData "https://v.pinimg.com/720p/video.mp4" (by decide)

/-! ### Claim C9 lemmas -/

theorem jdepth_values (d : JData) : ∀ w ∈ valuesChain d, 1 + jdepth w ≤ jdepth d := by
  induction d with
  | objCons k v tl ihv ihtl =>
    intro w hw
    rcases List.mem_cons.mp hw with rfl | hw2
    · exact le_max_left _ _
    · exact le_trans (ihtl w hw2) (le_max_right _ _)
  | arrCons hd tl ihh ihtl =>
    intro w hw
    rcases List.mem_cons.mp hw with rfl | hw2
    · exact le_max_left _ _
    · exact le_trans (ihtl w hw2) (le_max_right _ _)
  | str s => intro w hw; simp [valuesChain] at hw
  | int n => intro w hw; simp [valuesChain] at hw
  | bool b => intro w hw; simp [valuesChain] at hw
  | null => intro w hw; simp [valuesChain] at hw
  | arrNil => intro w hw; simp [valuesChain] at hw
  | objNil => intro w hw; simp [valuesChain] at hw

theorem walkFuel_succ (m : Nat) (d : JData) :
    walkFuel (m + 1) d = (walkList m (valuesChain d)).map (fun xs => hitAt d ++ xs) := rfl

theorem walkList_cons (fuel : Nat) (v : JData) (vs : List JData) :
    walkList fuel (v :: vs) =
      (do
        let x ← walkFuel fuel v
        let xs ← walkList fuel vs
        pure (x ++ xs)) := rfl

theorem recursiveSearch_true_eq (d : JData) :
    recursiveSearch true d = hitAt d ++ recursiveSearch false d := by
  cases d <;> simp [recursiveSearch, hitAt]

theorem walkList_complete (d : JData) :
    ∀ fuel : Nat, (∀ w ∈ valuesChain d, jdepth w < fuel) →
      walkList fuel (valuesChain d) = some (recursiveSearch false d) := by
  induction d with
  | objCons k v tl ihv ihtl =>
    intro fuel h
    have hv : jdepth v < fuel := h v (by simp [valuesChain])
    obtain ⟨m, rfl⟩ : ∃ m, fuel = m + 1 := ⟨fuel - 1, by omega⟩
    have hwv : walkFuel (m + 1) v = some (recursiveSearch true v) := by
      rw [walkFuel_succ, ihv m ?_]
      · simp [recursiveSearch_true_eq]
      · intro w hw
        have := jdepth_values v w hw
        omega
    have hwtl : walkList (m + 1) (valuesChain tl) = some (recursiveSearch false tl) :=
      ihtl (m + 1) (fun w hw => h w (by simp [valuesChain, hw]))
    show walkList (m + 1) (v :: valuesChain tl) = _
    rw [walkList_cons, hwv, hwtl]
    simp [recursiveSearch]
  | arrCons hd tl ihh ihtl =>
    intro fuel h
    have hv : jdepth hd < fuel := h hd (by simp [valuesChain])
    obtain ⟨m, rfl⟩ : ∃ m, fuel = m + 1 := ⟨fuel - 1, by omega⟩
    have hwv : walkFuel (m + 1) hd = some (recursiveSearch true hd) := by
      rw [walkFuel_succ, ihh m ?_]
      · simp [recursiveSearch_true_eq]
      · intro w hw
        have := jdepth_values hd w hw
        omega
    have hwtl : walkList (m + 1) (valuesChain tl) = some (recursiveSearch false tl) :=
      ihtl (m + 1) (fun w hw => h w (by simp [valuesChain, hw]))
    show walkList (m + 1) (hd :: valuesChain tl) = _
    rw [walkList_cons, hwv, hwtl]
    simp [recursiveSearch]
  | str s => intro fuel h; simp [valuesChain, walkList, recursiveSearch]
  | int n => intro fuel h; simp [valuesChain, walkList, recursiveSearch]
  | bool b => intro fuel h; simp [valuesChain, walkList, recursiveSearch]
  | null => intro fuel h; simp [valuesChain, walkList, recursiveSearch]
  | arrNil => intro fuel h; simp [valuesChain, walkList, recursiveSearch]
  | objNil => intro fuel h; simp [valuesChain, walkList, recursiveSearch]

theorem gWalk_cyclicHeap (fuel : Nat) : gWalk cyclicHeap fuel 0 = none := by
  induction fuel with
  | zero => rfl
  | succ m ih =>
    have ih2 : gWalk [GNode.objN [("self", 0)]] m 0 = none := ih
    simp [gWalk, cyclicHeap, ih2]

/-! ### Claim C9 -/

/-- **C9** (amended).  On every finite tree input the hunter's walk
terminates: a recursion-depth budget exceeding the input's nesting depth
suffices, and the budgeted walk completes with exactly the candidates of the
unbudgeted walk.  The code itself imposes no defensive depth bound: on the
cyclic self-referential structure `d = {}; d['self'] = d`, the walk completes
under **no** finite depth budget — in Python it aborts with `RecursionError`
once the interpreter limit is hit — rather than treating the cycle as a
non-match. -/
theorem C9_walk_termination :
    (∀ (d : JData) (fuel : Nat), jdepth d < fuel →
      walkFuel fuel d = some (recursiveSearch true d)) ∧
    (∀ fuel : Nat, gWalk cyclicHeap fuel 0 = none) := by
  constructor
  · intro d fuel h
    obtain ⟨m, rfl⟩ : ∃ m, fuel = m + 1 := ⟨fuel - 1, by omega⟩
    rw [walkFuel_succ, walkList_complete d m ?_]
    · simp [recursiveSearch_true_eq]
    · intro w hw
      have := jdepth_values d w hw
      omega
  · exact gWalk_cyclicHeap

/-- Counterexample to C9 as stated: the walk on the cyclic one-node heap never
terminates — no recursion budget lets it return, in particular it never
returns a `none`/no-match result. -/
theorem C9_counterexample : ¬ GWalkTerminates cyclicHeap 0 := by
  rintro ⟨fuel, r, h⟩
  rw [gWalk_cyclicHeap fuel] at h
  exact Option.noConfusion h

/-- Witness for C9: the spec scenario tree has depth 2, and with budget 3 the
budgeted walk completes with the full candidate collection. -/
theorem C9_witness :
    jdepth scenarioData < 3 ∧
    walkFuel 3 scenarioData = some (recursiveSearch true scenarioData) :=
  ⟨by decide, C9_walk_termination.1 scenarioData 3 (by decide)⟩

/-! ### Board / normalizer lemmas -/

theorem lookupA_eq_none_iff {α : Type} (l : List (String × α)) (k : String) :
    lookupA l k = none ↔ ∀ p ∈ l, p.1 ≠ k := by
  induction l with
  | nil => simp [lookupA]
  | cons p rest ih =>
    obtain ⟨k1, v⟩ := p
    by_cases h : k1 = k <;> simp [lookupA, h, ih]

theorem not_mem_map_fst_of_lookupA_none {α : Type} (l : List (String × α)) (k : String)
    (h : lookupA l k = none) : k ∉ l.map Prod.fst := by
  rw [lookupA_eq_none_iff] at h
  intro hmem
  obtain ⟨p, hp, hpk⟩ := List.mem_map.mp hmem
  exact h p hp hpk

theorem insertUrl_nodup {s : List String} (u : String) (h : s.Nodup) :
    (insertUrl s u).Nodup := by
  unfold insertUrl
  by_cases hm : u ∈ s
  · simpa [hm] using h
  · rw [if_neg hm, List.nodup_append]
    refine ⟨h, List.nodup_singleton u, ?_⟩
    intro a ha hb
    rw [List.mem_singleton] at hb
    subst hb
    exact hm ha

theorem insertAll_nodup (us : List String) :
    ∀ s : List String, s.Nodup → (insertAll s us).Nodup := by
  induction us with
  | nil => intro s h; exact h
  | cons u rest ih =>
    intro s h
    exact ih (insertUrl s u) (insertUrl_nodup u h)

theorem apiLoop_nodup :
    ∀ (pages : ApiPages) (bookmark : Option String) (pc mp : Nat) (s : List String),
      s.Nodup → (apiLoop pages bookmark pc mp s).Nodup := by
  intro pages
  induction pages with
  | nil =>
    intro bookmark pc mp s h
    cases bookmark with
    | none => exact h
    | some b =>
      unfold apiLoop
      split
      · exact h
      · exact h
  | cons p rest ih =>
    intro bookmark pc mp s h
    cases bookmark with
    | none => exact h
    | some b =>
      unfold apiLoop
      split
      · exact h
      · cases p with
        | none => exact h
        | some pr =>
          exact ih pr.2 (pc + 1) mp _ (insertAll_nodup _ _ h)

theorem cleanStep_preserves (minRes : Nat) (seen : List (String × String)) (u : String)
    (h1 : (seen.map Prod.fst).Nodup) (h2 : ∀ p ∈ seen, p.1 = baseFilename p.2) :
    ((cleanStep minRes seen u).map Prod.fst).Nodup ∧
    ∀ p ∈ cleanStep minRes seen u, p.1 = baseFilename p.2 := by
  have happend :
      (lookupA seen (baseFilename (subSizeSegs u))).isSome = false →
      (((seen ++ [(baseFilename (subSizeSegs u), subSizeSegs u)]).map Prod.fst).Nodup ∧
        ∀ p ∈ seen ++ [(baseFilename (subSizeSegs u), subSizeSegs u)],
          p.1 = baseFilename p.2) := by
    intro hlk
    have hnone : lookupA seen (baseFilename (subSizeSegs u)) = none := by
      cases hx : lookupA seen (baseFilename (subSizeSegs u)) with
      | none => rfl
      | some w => rw [hx] at hlk; exact absurd hlk (by simp)
    constructor
    · rw [List.map_append, List.nodup_append]
      refine ⟨h1, by simp, ?_⟩
      intro a ha hb
      simp only [List.map_cons, List.map_nil, List.mem_singleton] at hb
      subst hb
      exact not_mem_map_fst_of_lookupA_none seen _ hnone ha
    · intro p hp
      rcases List.mem_append.mp hp with hp1 | hp2
      · exact h2 p hp1
      · rw [List.mem_singleton] at hp2
        subst hp2
        rfl
  unfold cleanStep
  by_cases ha : acceptedExt u = true
  · rw [if_pos ha]
    dsimp only
    cases hf : findSize u.toList with
    | none =>
      dsimp only
      by_cases hlk : (lookupA seen (baseFilename (subSizeSegs u))).isSome = true
      · rw [if_pos hlk]
        exact ⟨h1, h2⟩
      · rw [if_neg hlk]
        exact happend (by simpa using hlk)
    | some wh =>
      obtain ⟨w, hgt⟩ := wh
      dsimp only
      by_cases hr : w * hgt < minRes
      · rw [if_pos hr]
        exact ⟨h1, h2⟩
      · rw [if_neg hr]
        by_cases hlk : (lookupA seen (baseFilename (subSizeSegs u))).isSome = true
        · rw [if_pos hlk]
          exact ⟨h1, h2⟩
        · rw [if_neg hlk]
          exact happend (by simpa using hlk)
  · rw [if_neg ha]
    exact ⟨h1, h2⟩

theorem cleanFold_inv (minRes : Nat) :
    ∀ (urls : List String) (seen : List (String × String)),
      (seen.map Prod.fst).Nodup →
      (∀ p ∈ seen, p.1 = baseFilename p.2) →
      ((urls.foldl (cleanStep minRes) seen).map Prod.fst).Nodup ∧
      ∀ p ∈ urls.foldl (cleanStep minRes) seen, p.1 = baseFilename p.2 := by
  intro urls
  induction urls with
  | nil => intro seen hn hb; exact ⟨hn, hb⟩
  | cons u us ih =>
    intro seen hn hb
    obtain ⟨hn2, hb2⟩ := cleanStep_preserves minRes seen u hn hb
    simpa using ih (cleanStep minRes seen u) hn2 hb2

theorem afterApi_nodup (env : BoardEnv) (maxPins : Nat) : (afterApi env maxPins).Nodup := by
  unfold afterApi
  cases env.boardMeta with
  | none => exact insertAll_nodup _ _ List.nodup_nil
  | some bm => exact apiLoop_nodup _ _ _ _ _ (insertAll_nodup _ _ List.nodup_nil)

/-! ### Claim C2 -/

/-- **C2** (amended).  `get_board_pins` returns at most `maxPins` entries and
never returns the same URL twice (the accumulation set guarantees string-level
uniqueness).  Within one `_clean_and_deduplicate_urls` pass the dedup keys
(base filenames) of the returned entries are pairwise distinct, and the
**first** accepted URL per dedup key is retained — not necessarily the one of
highest resolution score.  Across the merged sources (landing page, API
pagination, browser fallback) entries with equal dedup keys can both be
returned, because the API/browser merges compare full URLs only. -/
theorem C2_board_cap_and_dedup :
    (∀ (env : BoardEnv) (maxPins : Nat) (r : List String),
      getBoardPins env maxPins = .ok r → r.length ≤ maxPins ∧ r.Nodup) ∧
    (∀ (urls : List String) (minRes : Nat),
      ((cleanAndDeduplicateUrls urls minRes).map baseFilename).Nodup) := by
  constructor
  · intro env maxPins r h
    unfold getBoardPins at h
    by_cases hs : 200 ≤ env.status ∧ env.status < 300
    · rw [if_pos hs] at h
      dsimp only at h
      have hnodup := afterApi_nodup env maxPins
      by_cases hlen : (afterApi env maxPins).length < 10
      · rw [if_pos hlen] at h
        unfold scrapeBoardWithBrowser at h
        by_cases hq : env.browserQuiesced = true
        · rw [if_pos hq] at h
          dsimp only at h
          set s2 := insertAll (afterApi env maxPins)
            (cleanAndDeduplicateUrls env.browserHtmlUrls MIN_IMAGE_RESOLUTION) with hs2
          by_cases he : s2.isEmpty
          · rw [if_pos he] at h
            exact absurd h (by simp)
          · rw [if_neg he] at h
            have hr : r = s2.take maxPins := (Except.ok.inj h).symm
            subst hr
            refine ⟨by simp, ?_⟩
            exact List.Nodup.sublist (List.take_sublist _ _)
              (insertAll_nodup _ _ hnodup)
        · rw [if_neg hq] at h
          exact absurd h (by simp)
      · rw [if_neg hlen] at h
        dsimp only at h
        by_cases he : (afterApi env maxPins).isEmpty
        · rw [if_pos he] at h
          exact absurd h (by simp)
        · rw [if_neg he] at h
          have hr : r = (afterApi env maxPins).take maxPins := (Except.ok.inj h).symm
          subst hr
          refine ⟨by simp, ?_⟩
          exact List.Nodup.sublist (List.take_sublist _ _) hnodup
    · rw [if_neg hs] at h
      by_cases h404 : env.status = 404
      · rw [if_pos h404] at h
        exact absurd h (by simp)
      · rw [if_neg h404] at h
        exact absurd h (by simp)
  · intro urls minRes
    have hinv := cleanFold_inv minRes urls [] (by simp) (by simp)
    unfold cleanAndDeduplicateUrls
    have hmaps :
        ((urls.foldl (cleanStep minRes) []).map Prod.snd).map baseFilename =
          (urls.foldl (cleanStep minRes) []).map Prod.fst := by
      rw [List.map_map]
      apply List.map_congr_left
      intro p hp
      exact (hinv.2 p hp).symm
    rw [hmaps]
    exact hinv.1

/-- Counterexample to C2 as stated: the landing page contributes
`600x400/aa/pic.jpg` and the pagination endpoint `800x600/bb/pic.jpg`; both
survive and are returned, yet they share the dedup key `pic.jpg` — duplicate
dedup keys are returned.  Moreover, within one cleaning pass on the same two
URLs, the retained entry for `pic.jpg` is the **first** (score 240000), not
the highest-resolution one (score 480000). -/
theorem C2_counterexample :
    getBoardPins envDupKeys 500 =
      .ok ["https://i.pinimg.com/originals/aa/pic.jpg",
           "https://i.pinimg.com/originals/bb/pic.jpg"] ∧
    baseFilename "https://i.pinimg.com/originals/aa/pic.jpg" =
      baseFilename "https://i.pinimg.com/originals/bb/pic.jpg" ∧
    "https://i.pinimg.com/originals/aa/pic.jpg" ≠
      "https://i.pinimg.com/originals/bb/pic.jpg" ∧
    cleanAndDeduplicateUrls
        ["https://i.pinimg.com/600x400/aa/pic.jpg",
         "https://i.pinimg.com/800x600/bb/pic.jpg"] MIN_IMAGE_RESOLUTION =
      ["https://i.pinimg.com/originals/aa/pic.jpg"] ∧
    resScore "https://i.pinimg.com/600x400/aa/pic.jpg" <
      resScore "https://i.pinimg.com/800x600/bb/pic.jpg" :=
  ⟨by decide, by decide, by decide, by decide, by decide⟩

/-- Witness for C2: the amended theorem applied to the concrete board run of
the counterexample environment and to a concrete cleaning pass. -/
theorem C2_witness :
    (["https://i.pinimg.com/originals/aa/pic.jpg",
      "https://i.pinimg.com/originals/bb/pic.jpg"].length ≤ 500 ∧
     ["https://i.pinimg.com/originals/aa/pic.jpg",
      "https://i.pinimg.com/originals/bb/pic.jpg"].Nodup) ∧
    ((cleanAndDeduplicateUrls
        ["https://i.pinimg.com/600x400/aa/pic.jpg",
         "https://i.pinimg.com/800x600/bb/pic.jpg"]
        MIN_IMAGE_RESOLUTION).map baseFilename).Nodup :=
  ⟨C2_board_cap_and_dedup.1 envDupKeys 500 _ (by decide),
   C2_board_cap_and_dedup.2 _ _⟩

/-! ### Claim C6 -/

theorem mem_cleanFold (minRes : Nat) :
    ∀ (urls : List String) (seen : List (String × String)) (p : String × String),
      p ∈ urls.foldl (cleanStep minRes) seen →
      p ∈ seen ∨ ∃ u ∈ urls, acceptedExt u = true ∧
        (∀ w h, findSize u.toList = some (w, h) → minRes ≤ w * h) ∧
        p.2 = subSizeSegs u := by
  intro urls
  induction urls with
  | nil => intro seen p h; exact Or.inl h
  | cons u us ih =>
    intro seen p h
    rcases ih (cleanStep minRes seen u) p h with hin | ⟨u2, hu2, hrest⟩
    · have hstep :
          p ∈ seen ∨ (acceptedExt u = true ∧
            (∀ w h, findSize u.toList = some (w, h) → minRes ≤ w * h) ∧
            p.2 = subSizeSegs u) := by
        unfold cleanStep at hin
        by_cases ha : acceptedExt u = true
        · rw [if_pos ha] at hin
          dsimp only at hin
          cases hf : findSize u.toList with
          | none =>
            rw [hf] at hin
            dsimp only at hin
            by_cases hlk : (lookupA seen (baseFilename (subSizeSegs u))).isSome = true
            · rw [if_pos hlk] at hin
              exact Or.inl hin
            · rw [if_neg hlk] at hin
              rcases List.mem_append.mp hin with hp1 | hp2
              · exact Or.inl hp1
              · rw [List.mem_singleton] at hp2
                subst hp2
                exact Or.inr ⟨ha, fun w hh heq => Option.noConfusion heq, rfl⟩
          | some wh =>
            obtain ⟨w, hgt⟩ := wh
            rw [hf] at hin
            dsimp only at hin
            by_cases hr : w * hgt < minRes
            · rw [if_pos hr] at hin
              exact Or.inl hin
            · rw [if_neg hr] at hin
              by_cases hlk : (lookupA seen (baseFilename (subSizeSegs u))).isSome = true
              · rw [if_pos hlk] at hin
                exact Or.inl hin
              · rw [if_neg hlk] at hin
                rcases List.mem_append.mp hin with hp1 | hp2
                · exact Or.inl hp1
                · rw [List.mem_singleton] at hp2
                  subst hp2
                  refine Or.inr ⟨ha, ?_, rfl⟩
                  intro w2 h2 heq
                  injection heq with hpair
                  cases hpair
                  omega
        · rw [if_neg ha] at hin
          exact Or.inl hin
      rcases hstep with h1 | ⟨ha, hres, hsnd⟩
      · exact Or.inl h1
      · exact Or.inr ⟨u, by simp, ha, hres, hsnd⟩
    · exact Or.inr ⟨u2, by simp [hu2], hrest⟩

/-- **C6** (amended).  Every URL returned by `_clean_and_deduplicate_urls`
comes from an input URL that (a) carries an accepted image extension and
(b) **if** its `/WxH/` size segment is present, scores `W*H` at or above the
minimum-resolution floor; URLs failing either test are excluded.  URLs
*without* a size segment (resolution score 0 by the spec's convention) are
**not** excluded — the floor is only applied when the segment matches, which
the claim as stated overlooks. -/
theorem C6_normalize_exclusions (urls : List String) (minRes : Nat) (v : String)
    (hv : v ∈ cleanAndDeduplicateUrls urls minRes) :
    ∃ u ∈ urls, acceptedExt u = true ∧
      (∀ w h, findSize u.toList = some (w, h) → minRes ≤ w * h) ∧
      v = subSizeSegs u := by
  unfold cleanAndDeduplicateUrls at hv
  obtain ⟨p, hp, hpv⟩ := List.mem_map.mp hv
  rcases mem_cleanFold minRes urls [] p hp with hin | ⟨u, hu, hext, hres, hsnd⟩
  · simp at hin
  · exact ⟨u, hu, hext, hres, by rw [← hpv, hsnd]⟩

/-- Counterexample to C6 as stated: an `originals` URL with no size segment
has resolution score 0, strictly below the floor of 40000, yet `normalize`
keeps it. -/
theorem C6_counterexample :
    cleanAndDeduplicateUrls ["https://i.pinimg.com/originals/ab/cd.jpg"]
        MIN_IMAGE_RESOLUTION =
      ["https://i.pinimg.com/originals/ab/cd.jpg"] ∧
    resScore "https://i.pinimg.com/originals/ab/cd.jpg" = 0 ∧
    0 < MIN_IMAGE_RESOLUTION :=
  ⟨by decide, by decide, by decide⟩

/-- Witness for C6: the amended exclusion property instantiated on a concrete
sized URL that survives cleaning. -/
theorem C6_witness :
    ∃ u ∈ ["https://i.pinimg.com/600x400/aa/pic.jpg"], acceptedExt u = true ∧
      (∀ w h, findSize u.toList = some (w, h) → MIN_IMAGE_RESOLUTION ≤ w * h) ∧
      "https://i.pinimg.com/originals/aa/pic.jpg" = subSizeSegs u :=
  C6_normalize_exclusions _ _ _ (by decide)

/-! ### Claim C7 -/

/-- **C7** (amended).  `fetchPhoto` fails with the invalid-content error
(`MediaProcessingException`) when the fetched document carries no `og:image`
reference; on a non-success HTTP status it fails with `DeadLinkException`
**only for 404** — every other non-success status raises the generic
`PinterestAPIException` instead.  `fetchVideo` fails with the invalid-content
error when the `data-relay-response` block is absent, is not valid JSON, or
contains no playable video URL, and classifies HTTP failures the same way. -/
theorem C7_fetch_error_classification :
    (∀ (url : String) (p : PhotoPage),
      200 ≤ p.status → p.status < 300 → p.ogImage = none →
      getPhotoData url p = .error .mediaProcessing) ∧
    (∀ (url : String) (p : PhotoPage),
      ¬(200 ≤ p.status ∧ p.status < 300) →
      getPhotoData url p =
        (if p.status = 404 then .error .deadLink else .error (.apiError p.status))) ∧
    (∀ (url : String) (p : VideoPage),
      200 ≤ p.status → p.status < 300 →
      (p.relay = none → getVideoData url p = .error .mediaProcessing) ∧
      (p.relay = some none → getVideoData url p = .error .mediaProcessing) ∧
      (∀ d, p.relay = some (some d) → findBestVideoUrl d = none →
        getVideoData url p = .error .mediaProcessing)) ∧
    (∀ (url : String) (p : VideoPage),
      ¬(200 ≤ p.status ∧ p.status < 300) →
      getVideoData url p =
        (if p.status = 404 then .error .deadLink else .error (.apiError p.status))) := by
  refine ⟨?_, ?_, ?_, ?_⟩
  · intro url p h1 h2 himg
    unfold getPhotoData
    rw [if_pos ⟨h1, h2⟩, himg]
  · intro url p hs
    unfold getPhotoData
    rw [if_neg hs]
  · intro url p h1 h2
    refine ⟨?_, ?_, ?_⟩
    · intro hr
      unfold getVideoData
      rw [if_pos ⟨h1, h2⟩, hr]
    · intro hr
      unfold getVideoData
      rw [if_pos ⟨h1, h2⟩, hr]
    · intro d hr hfind
      unfold getVideoData
      rw [if_pos ⟨h1, h2⟩, hr]
      dsimp only
      rw [hfind]
  · intro url p hs
    unfold getVideoData
    rw [if_neg hs]

/-- Counterexample to C7 as stated: a non-success status 500 yields the
generic API error, not `DeadLink`. -/
theorem C7_counterexample :
    getPhotoData "u" ⟨500, some "img"⟩ = .error (.apiError 500) ∧
    getPhotoData "u" ⟨500, some "img"⟩ ≠ .error .deadLink :=
  ⟨by decide, by decide⟩

/-- Witness for C7: the amended classification instantiated on concrete
responses — a 200 document without an image reference, a 404, and a 200
document without a relay block. -/
theorem C7_witness :
    getPhotoData "u" ⟨200, none⟩ = .error .mediaProcessing ∧
    getPhotoData "u" ⟨404, some "x"⟩ = .error .deadLink ∧
    getVideoData "u" ⟨200, none⟩ = .error .mediaProcessing := by
  refine ⟨C7_fetch_error_classification.1 "u" ⟨200, none⟩ (by decide) (by decide) rfl, ?_, ?_⟩
  · have h := C7_fetch_error_classification.2.1 "u" ⟨404, some "x"⟩ (by decide)
    simpa using h
  · exact (C7_fetch_error_classification.2.2.1 "u" ⟨200, none⟩ (by decide) (by decide)).1 rfl

/-! ### Claim C8 -/

/-- **C8** (amended).  When the Browser Fallback Scraper's wait for network
quiescence exceeds its 30-second bound, the failure **is** fatal: the raised
timeout is re-thrown as `BrowserException`, the partially rendered document is
not scanned, and the enclosing board fetch fails with the processing error
instead of merging any assets. -/
theorem C8_browser_timeout_is_fatal (env : BoardEnv) (maxPins : Nat)
    (hs1 : 200 ≤ env.status) (hs2 : env.status < 300)
    (hq : env.browserQuiesced = false)
    (hlen : (afterApi env maxPins).length < 10) :
    getBoardPins env maxPins = .error .mediaProcessing := by
  unfold getBoardPins
  rw [if_pos ⟨hs1, hs2⟩]
  dsimp only
  rw [if_pos hlen]
  unfold scrapeBoardWithBrowser
  rw [hq]
  rfl

/-- Counterexample to C8 as stated: a board run whose fast paths find nothing
and whose browser session times out before quiescence fails with the
processing error, even though the partially rendered document contained a
usable image URL that scanning would have extracted. -/
theorem C8_counterexample :
    getBoardPins envBrowserTimeout 500 = .error .mediaProcessing ∧
    cleanAndDeduplicateUrls envBrowserTimeout.browserHtmlUrls MIN_IMAGE_RESOLUTION =
      ["https://i.pinimg.com/originals/aa/bb.jpg"] :=
  ⟨by decide, by decide⟩

/-- Witness for C8: the amended claim applied to the concrete timed-out
environment. -/
theorem C8_witness :
    (afterApi envBrowserTimeout 500).length < 10 ∧
    getBoardPins envBrowserTimeout 500 = .error .mediaProcessing :=
  ⟨by decide,
   C8_browser_timeout_is_fatal envBrowserTimeout 500 (by decide) (by decide)
     (by decide) (by decide)⟩

end Pinfairy
